/- Spec2Proof.lean — a verification development for the CCManager task
   dispatch and lifecycle engine.

   Shallow embedding of:
   * src/models/task.ts                (Task data model)
   * src/services/process-spawner.ts   (ClaudeProcess)
   * src/services/history-service.ts   (addTaskToHistory and friends)
   * the task manager service          (TaskManager: createTask, processQueue,
                                        startTask, cancelTask, getTask, counts)

   Modelling conventions:
   * Machine timestamps (Date.now()) are modelled by a logical clock (Nat);
     durations are Int differences of clock values.
   * uuidv4() is modelled by a fresh-counter: each created task receives the
     manager's nextId, which is then incremented.  Task ids are therefore Nat.
   * JavaScript numbers used for budgets are modelled as Rat (exact rationals);
     the truthiness test `if (this.options.maxBudget)` is modelled as
     "is some b with b ≠ 0" (undefined and 0 are the falsy cases; NaN has no
     Rat counterpart).
   * All async operations of the engine execute atomically with respect to one
     another (single-threaded event loop); the engine is a deterministic state
     machine driven by a list of external actions (API calls and subprocess
     events).
   * The heap of JavaScript Task objects (which are mutated through shared
     references, in particular by the exit-handler closure of a process that
     outlives its task's membership in runningTasks) is modelled as a list of
     tasks keyed by their unique id.
-/
import Mathlib

namespace CCManager

/-! ## Data model (src/models/task.ts) -/

inductive TaskStatus where
  | pending
  | running
  | completed
  | failed
  | cancelled
  deriving DecidableEq, Repr

structure Task where
  id : Nat
  projectId : String
  prompt : String
  status : TaskStatus
  maxBudget : Option Rat
  createdAt : Nat
  startedAt : Option Nat
  completedAt : Option Nat
  costUsd : Option Rat
  durationMs : Option Int
  output : String
  error : Option String
  deriving DecidableEq, Repr

structure CreateTaskInput where
  projectId : String
  prompt : String
  maxBudget : Option Rat
  deriving DecidableEq, Repr

structure TaskHistory where
  tasks : List Task
  lastUpdated : Nat
  deriving DecidableEq, Repr

/-! ## History sink (src/services/history-service.ts)

`addTaskToHistory` loads the history, replaces the entry with the same id if
one exists (`findIndex` + in-place assignment) and otherwise pushes the task,
truncates to the last 100 entries (`slice(-100)`), and saves. -/

/-- The findIndex/assign-or-push step of `addTaskToHistory`. -/
def replaceOrAppend (tasks : List Task) (task : Task) : List Task :=
  match tasks.findIdx? (fun t => t.id == task.id) with
  | some i => tasks.set i task
  | none => tasks ++ [task]

/-- The `if (history.tasks.length > 100) history.tasks = history.tasks.slice(-100)`
step of `addTaskToHistory`. -/
def truncateHistory (tasks : List Task) : List Task :=
  if tasks.length > 100 then tasks.drop (tasks.length - 100) else tasks

/-- `addTaskToHistory` from src/services/history-service.ts; `now` models the
`new Date()` stored by `saveHistory` into `lastUpdated`. -/
def addTaskToHistory (now : Nat) (h : TaskHistory) (task : Task) : TaskHistory :=
  { tasks := truncateHistory (replaceOrAppend h.tasks task), lastUpdated := now }

/-! ## Process supervisor (src/services/process-spawner.ts) -/

structure SpawnOptions where
  cwd : String
  prompt : String
  maxBudget : Option Rat
  deriving DecidableEq, Repr

/-- `Math.max(25, Math.ceil(maxBudget * 10))` from `ClaudeProcess.start`. -/
def maxTurnsFor (budget : Rat) : Int := max 25 ⌈budget * 10⌉

/-- The argument block contributed by `if (this.options.maxBudget) { args.push("--max-turns", ...) }`.
JavaScript truthiness: `undefined` and `0` skip the block. -/
def budgetArgs : Option Rat → List String
  | none => []
  | some b => if b = 0 then [] else ["--max-turns", toString (maxTurnsFor b)]

/-- The full argument vector assembled by `ClaudeProcess.start`. -/
def spawnArgs (o : SpawnOptions) : List String :=
  ["-p", o.prompt, "--dangerously-skip-permissions"] ++ budgetArgs o.maxBudget ++ ["--verbose"]

/-- Raw events of the underlying child process handle, as delivered by the OS /
Node runtime to the listeners installed in `ClaudeProcess.start`.  A
spawn-level failure (executable missing, OS error) surfaces as a single
`spawnError` with no native exit event. -/
inductive ChildEvent where
  | stdoutData (s : String)
  | stderrData (s : String)
  | exited (code : Option Int) (signal : Option String)
  | spawnError (msg : String)
  deriving DecidableEq, Repr

/-- Events emitted by `ClaudeProcess` to its own observers. -/
inductive ProcEvent where
  | output (s : String)
  | error (s : String)
  | exit (code : Option Int) (signal : Option String)
  deriving DecidableEq, Repr

/-- What the listeners installed by `ClaudeProcess.start` emit for one raw
child-process event: stdout data re-emits `output`, stderr data re-emits
`error`, a native exit re-emits `exit(code, signal)`, and an `error` from the
handle emits `error(err.message)` followed by `exit(1, null)`. -/
def onChildEvent : ChildEvent → List ProcEvent
  | ChildEvent.stdoutData s => [ProcEvent.output s]
  | ChildEvent.stderrData s => [ProcEvent.error s]
  | ChildEvent.exited code signal => [ProcEvent.exit code signal]
  | ChildEvent.spawnError msg => [ProcEvent.error msg, ProcEvent.exit (some 1) none]

/-- The full event stream emitted by a `ClaudeProcess` over the raw event
stream of its child handle. -/
def emittedEvents : List ChildEvent → List ProcEvent
  | [] => []
  | e :: es => onChildEvent e ++ emittedEvents es

def isExitEvent : ProcEvent → Bool
  | ProcEvent.exit _ _ => true
  | _ => false

/-- A raw child event that is terminal for the handle: a native exit or a
spawn-level error.  Node delivers exactly one of these per process. -/
def isTerminalChildEvent : ChildEvent → Bool
  | ChildEvent.exited _ _ => true
  | ChildEvent.spawnError _ => true
  | _ => false

def countExits (evs : List ProcEvent) : Nat := evs.countP isExitEvent

/-- Observable state of one `ClaudeProcess`: `procStarted` models
`this.process !== null`, `procKilled` models `this.process.killed` (Node sets
it only when `kill()` successfully sends a signal), and `procExited` is ghost
state recording whether the OS process has actually terminated — the source
class keeps no corresponding field. -/
structure ProcState where
  procStarted : Bool
  procKilled : Bool
  procExited : Bool
  deriving DecidableEq, Repr

def ProcState.init : ProcState := ⟨false, false, false⟩

inductive ProcAction where
  | start
  | kill
  | exited
  deriving DecidableEq, Repr

/-- Transitions of one `ClaudeProcess`: `start()` installs the handle;
`kill()` sends SIGTERM guarded by `if (this.process && !this.process.killed)`;
`exited` is the OS terminating the process (normal exit or signal), which the
source class does not record in any field. -/
def procStep (s : ProcState) : ProcAction → ProcState
  | ProcAction.start => { s with procStarted := true }
  | ProcAction.kill =>
      if s.procStarted && !s.procKilled then { s with procKilled := true } else s
  | ProcAction.exited => { s with procExited := true }

/-- `isRunning()` from src/services/process-spawner.ts lines 81-83:
`this.process !== null && !this.process.killed`. -/
def isRunning (s : ProcState) : Bool := s.procStarted && !s.procKilled

/-! ## Task lifecycle engine (the TaskManager service)

The engine is a deterministic state machine.  Its state holds the heap of task
objects (keyed by unique id), the pending queue and the running map (as lists
of ids, in insertion order), the set of process exit handlers still attached
to a live or killed-but-not-yet-exited child process, the fresh-id counter and
logical clock, the list of emitted `TaskEvent`s, and the ordered log of
`addTaskToHistory` calls made so far. -/

inductive TaskEvent where
  | created (task : Task)
  | started (task : Task)
  | output (taskId : Nat) (data : String)
  | completed (task : Task)
  | failed (task : Task)
  | cancelled (task : Task)
  deriving DecidableEq, Repr

def MAX_CONCURRENT_TASKS : Nat := 3

structure ManagerState where
  tasks : List Task
  pendingIds : List Nat
  runningIds : List Nat
  liveHandlers : List Nat
  nextId : Nat
  clock : Nat
  events : List TaskEvent
  historyWrites : List Task
  deriving DecidableEq, Repr

def initState : ManagerState :=
  { tasks := [], pendingIds := [], runningIds := [], liveHandlers := [],
    nextId := 0, clock := 0, events := [], historyWrites := [] }

/-- Dereference a task object by id (JavaScript object references are modelled
by ids into the task heap). -/
def getTaskObj (s : ManagerState) (tid : Nat) : Option Task :=
  s.tasks.find? (fun t => t.id == tid)

/-- Mutate the task object with the given id in the heap. -/
def updateTaskObj (s : ManagerState) (tid : Nat) (f : Task → Task) : ManagerState :=
  { s with tasks := s.tasks.map (fun t => if t.id == tid then f t else t) }

/-- The `task.status = "running"; task.startedAt = new Date()` mutation of
`startTask`. -/
def runningTaskOf (t : Task) (now : Nat) : Task :=
  { t with status := TaskStatus.running, startedAt := some now }

/-- `TaskManager.startTask`: re-resolve the project; if missing, mark failed,
emit `task:failed`, persist; otherwise mark running, spawn the process, add to
the running map, attach the exit handler, emit `task:started`. -/
def startTask (lookup : String → Option String) (tid : Nat) (s : ManagerState) : ManagerState :=
  match getTaskObj s tid with
  | none => s
  | some t =>
    match lookup t.projectId with
    | none =>
      let t2 := { t with status := TaskStatus.failed,
                         error := some ("Project not found: " ++ t.projectId),
                         completedAt := some s.clock }
      let s2 := updateTaskObj s tid (fun _ => t2)
      { s2 with events := s2.events ++ [TaskEvent.failed t2],
                historyWrites := s2.historyWrites ++ [t2],
                clock := s2.clock + 1 }
    | some _path =>
      let t2 := runningTaskOf t s.clock
      let s2 := updateTaskObj s tid (fun _ => t2)
      { s2 with runningIds := s2.runningIds ++ [tid],
                liveHandlers := s2.liveHandlers ++ [tid],
                events := s2.events ++ [TaskEvent.started t2],
                clock := s2.clock + 1 }

/-- The `while (pendingTasks.length > 0 && runningTasks.size < MAX_CONCURRENT_TASKS)`
loop of `TaskManager.processQueue`, with fuel bounding the iteration count.
Each iteration shifts the queue head, so the initial queue length is enough
fuel. -/
def processQueueAux (lookup : String → Option String) : Nat → ManagerState → ManagerState
  | 0, s => s
  | fuel + 1, s =>
    match s.pendingIds with
    | [] => s
    | tid :: rest =>
      if s.runningIds.length < MAX_CONCURRENT_TASKS then
        processQueueAux lookup fuel (startTask lookup tid { s with pendingIds := rest })
      else s

/-- `TaskManager.processQueue`. -/
def processQueue (lookup : String → Option String) (s : ManagerState) : ManagerState :=
  processQueueAux lookup s.pendingIds.length s

/-- The Task constructed by `TaskManager.createTask` on a successful project
lookup: status pending, fresh id, empty output. -/
def mkTask (s : ManagerState) (input : CreateTaskInput) : Task :=
  { id := s.nextId, projectId := input.projectId, prompt := input.prompt,
    status := TaskStatus.pending, maxBudget := input.maxBudget,
    createdAt := s.clock, startedAt := none, completedAt := none,
    costUsd := none, durationMs := none, output := "", error := none }

/-- The state mutation of `TaskManager.createTask` between the project lookup
and the call to `processQueue`: push the new task, emit `task:created`. -/
def enqueueTask (s : ManagerState) (input : CreateTaskInput) : ManagerState :=
  let task := mkTask s input
  { s with tasks := s.tasks ++ [task],
           pendingIds := s.pendingIds ++ [task.id],
           nextId := s.nextId + 1,
           clock := s.clock + 1,
           events := s.events ++ [TaskEvent.created task] }

/-- `TaskManager.createTask`: resolve the project (throwing
"Project not found" if absent, before any mutation), construct and enqueue the
task, emit `task:created`, run the admission cycle, return the task. -/
def createTask (lookup : String → Option String) (input : CreateTaskInput)
    (s : ManagerState) : Except String (ManagerState × Task) :=
  match lookup input.projectId with
  | none => Except.error ("Project not found: " ++ input.projectId)
  | some _ => Except.ok (processQueue lookup (enqueueTask s input), mkTask s input)

/-- The stdout listener wired in `startTask`: append the chunk to the task's
output and emit a `task:output` event carrying the delta.  The listener is
attached to the process, so it is active exactly while the exit handler is. -/
def handleOutput (tid : Nat) (data : String) (s : ManagerState) : ManagerState :=
  if s.liveHandlers.contains tid then
    match getTaskObj s tid with
    | none => s
    | some t =>
      let t2 := { t with output := t.output ++ data }
      let s2 := updateTaskObj s tid (fun _ => t2)
      { s2 with events := s2.events ++ [TaskEvent.output tid data] }
  else s

/-- The stderr listener wired in `startTask`: initialize the error text to ""
if unset and append the chunk; no event is emitted. -/
def handleStderr (tid : Nat) (data : String) (s : ManagerState) : ManagerState :=
  if s.liveHandlers.contains tid then
    match getTaskObj s tid with
    | none => s
    | some t => updateTaskObj s tid (fun _ => { t with error := some (t.error.getD "" ++ data) })
  else s

/-- `${code}` interpolation of the exit code in the failure message. -/
def exitCodeStr : Option Int → String
  | none => "null"
  | some n => toString n

/-- The body of the exit handler applied to the captured task object: stamp
`completedAt` and `durationMs`; on exit code 0 mark completed, otherwise mark
failed and, if no error text accumulated (undefined or the falsy ""), set
"Process exited with code N". -/
def finalizeTask (code : Option Int) (now : Nat) (t : Task) : Task :=
  let t2 := { t with completedAt := some now,
                     durationMs := some ((now : Int) - ((t.startedAt.getD 0 : Nat) : Int)) }
  if code = some 0 then
    { t2 with status := TaskStatus.completed }
  else
    { t2 with status := TaskStatus.failed,
              error := if t2.error = none ∨ t2.error = some "" then
                  some ("Process exited with code " ++ exitCodeStr code)
                else t2.error }

/-- The state mutation of the exit handler body on the captured task object
`t`: remove from the running map, finalize `t`, emit
`task:completed`/`task:failed`, record the history persistence. -/
def exitFinalize (tid : Nat) (code : Option Int) (t : Task) (s : ManagerState) : ManagerState :=
  let t2 := finalizeTask code s.clock t
  let s2 := updateTaskObj s tid (fun _ => t2)
  { s2 with runningIds := s2.runningIds.erase tid,
            events := s2.events ++
              [if code = some 0 then TaskEvent.completed t2 else TaskEvent.failed t2],
            historyWrites := s2.historyWrites ++ [t2],
            clock := s2.clock + 1 }

/-- The `proc.on("exit", ...)` handler wired in `startTask`.  It fires once per
spawned process — also for a process killed by `cancelTask`, since nothing in
the source detaches it.  It removes the task from the running map, finalizes
the captured task object, emits `task:completed`/`task:failed`, persists to
history, and runs the admission cycle. -/
def handleExit (lookup : String → Option String) (tid : Nat) (code : Option Int)
    (s : ManagerState) : ManagerState :=
  if s.liveHandlers.contains tid then
    let s1 := { s with liveHandlers := s.liveHandlers.erase tid }
    match getTaskObj s1 tid with
    | none => s1
    | some t => processQueue lookup (exitFinalize tid code t s1)
  else s

/-- The state mutation of `cancelTask` for a running task: mark cancelled,
remove from the running map, emit `task:cancelled`, record the history
persistence.  The process is killed but its exit handler stays attached —
`liveHandlers` is not touched, since the source never detaches listeners. -/
def cancelFinalizeRunning (tid : Nat) (t : Task) (s : ManagerState) : ManagerState :=
  let t2 := { t with status := TaskStatus.cancelled, completedAt := some s.clock }
  let s2 := updateTaskObj s tid (fun _ => t2)
  { s2 with runningIds := s2.runningIds.erase tid,
            events := s2.events ++ [TaskEvent.cancelled t2],
            historyWrites := s2.historyWrites ++ [t2],
            clock := s2.clock + 1 }

/-- `TaskManager.cancelTask`.  Pending: splice out of the queue, mark
cancelled, emit, persist (no admission cycle needed).  Running: kill the
process (the exit handler stays attached — `liveHandlers` is not touched),
mark cancelled, remove from the running map, emit, persist, run the admission
cycle.  Returns false if the id matches neither set. -/
def cancelTask (lookup : String → Option String) (tid : Nat)
    (s : ManagerState) : ManagerState × Bool :=
  match s.pendingIds.findIdx? (fun i => i == tid) with
  | some idx =>
    let s1 := { s with pendingIds := s.pendingIds.eraseIdx idx }
    match getTaskObj s1 tid with
    | none => (s1, true)
    | some t =>
      let t2 := { t with status := TaskStatus.cancelled, completedAt := some s1.clock }
      let s2 := updateTaskObj s1 tid (fun _ => t2)
      ({ s2 with events := s2.events ++ [TaskEvent.cancelled t2],
                 historyWrites := s2.historyWrites ++ [t2],
                 clock := s2.clock + 1 }, true)
  | none =>
    if s.runningIds.contains tid then
      match getTaskObj s tid with
      | none => (s, false)
      | some t => (processQueue lookup (cancelFinalizeRunning tid t s), true)
    else (s, false)

/-- `TaskManager.getTask`: look up across pending and running sets only. -/
def getTask (s : ManagerState) (tid : Nat) : Option Task :=
  if s.pendingIds.contains tid then getTaskObj s tid
  else if s.runningIds.contains tid then getTaskObj s tid
  else none

/-- `TaskManager.getPendingCount`. -/
def getPendingCount (s : ManagerState) : Nat := s.pendingIds.length

/-- `TaskManager.getRunningCount`. -/
def getRunningCount (s : ManagerState) : Nat := s.runningIds.length

/-- External stimuli driving the engine: API calls (`createTask`,
`cancelTask`) and events of the supervised child processes, which the
engine's single-threaded event loop serializes. -/
inductive Action where
  | create (input : CreateTaskInput)
  | cancel (tid : Nat)
  | procOutput (tid : Nat) (data : String)
  | procStderr (tid : Nat) (data : String)
  | procExit (tid : Nat) (code : Option Int)
  deriving DecidableEq, Repr

/-- One atomic engine step.  A `createTask` rejection (`Project not found`)
leaves the state untouched — the source throws before constructing the task. -/
def step (lookup : String → Option String) (s : ManagerState) : Action → ManagerState
  | Action.create input =>
    match createTask lookup input s with
    | Except.ok (s2, _) => s2
    | Except.error _ => s
  | Action.cancel tid => (cancelTask lookup tid s).1
  | Action.procOutput tid data => handleOutput tid data s
  | Action.procStderr tid data => handleStderr tid data s
  | Action.procExit tid code => handleExit lookup tid code s

/-- Run the engine over a serialized list of external actions. -/
def run (lookup : String → Option String) (s : ManagerState) (acts : List Action) :
    ManagerState :=
  acts.foldl (step lookup) s

/-- Ids carried by `task:started` events, in emission order. -/
def startedIds (evs : List TaskEvent) : List Nat :=
  evs.filterMap (fun e => match e with | TaskEvent.started t => some t.id | _ => none)

/-- The task id an event is about. -/
def eventTaskId : TaskEvent → Nat
  | TaskEvent.created t => t.id
  | TaskEvent.started t => t.id
  | TaskEvent.output tid _ => tid
  | TaskEvent.completed t => t.id
  | TaskEvent.failed t => t.id
  | TaskEvent.cancelled t => t.id

def isFailedEvent : TaskEvent → Bool
  | TaskEvent.failed _ => true
  | _ => false

/-- A project-lookup collaborator in which every project id resolves. -/
def allProjects (path : String → String) : String → Option String :=
  fun pid => some (path pid)

/-- The shape of the engine state after `k` submissions (with every project
resolving and no process event in between), counted from the empty engine:
task ids are 0..k-1, the first min(k,3) are running with live exit handlers
and `task:started` events in submission order, the rest queue up in FIFO
order. -/
def CreatesInv (k : Nat) (s : ManagerState) : Prop :=
  s.tasks.map Task.id = List.range k ∧
  s.runningIds = List.range (min k 3) ∧
  s.pendingIds = (List.range k).drop 3 ∧
  s.liveHandlers = List.range (min k 3) ∧
  s.nextId = k ∧
  startedIds s.events = List.range (min k 3)

/-! ## Supporting lemmas about the engine -/

lemma contains_iff (l : List Nat) (a : Nat) : l.contains a = true ↔ a ∈ l :=
  List.elem_iff

/-- Updating the task keyed `tid` in the heap (by an id-preserving mutation)
does not change what dereferencing any other id yields. -/
lemma find?_update_ne (tid tid2 : Nat) (f : Task → Task) (hne : tid2 ≠ tid)
    (hf : ∀ t : Task, t.id = tid → (f t).id = tid) :
    ∀ ts : List Task,
      (ts.map (fun t => if t.id == tid then f t else t)).find? (fun t => t.id == tid2)
        = ts.find? (fun t => t.id == tid2) := by
  intro ts
  induction ts with
  | nil => rfl
  | cons t ts ih =>
    rw [List.map_cons]
    by_cases ht : t.id = tid
    · have hb : (t.id == tid) = true := by simpa using ht
      have hfid : (f t).id = tid := hf t ht
      have h1 : ((f t).id == tid2) = false := by
        simp only [hfid, beq_eq_false_iff_ne]
        exact fun h => hne h.symm
      have h2 : (t.id == tid2) = false := by
        simp only [ht, beq_eq_false_iff_ne]
        exact fun h => hne h.symm
      rw [if_pos hb]
      simp only [List.find?_cons, h1, h2]
      exact ih
    · have hb : ¬ (t.id == tid) = true := by simpa using ht
      rw [if_neg hb]
      by_cases h2p : t.id = tid2
      · have h2 : (t.id == tid2) = true := by simpa using h2p
        simp only [List.find?_cons, h2]
      · have h2 : (t.id == tid2) = false := by simpa using h2p
        simp only [List.find?_cons, h2]
        exact ih

/-- Updating the task keyed `tid` rewrites what dereferencing `tid` yields. -/
lemma find?_update_self (tid : Nat) (f : Task → Task)
    (hf : ∀ t : Task, t.id = tid → (f t).id = tid) :
    ∀ (ts : List Task) (t : Task), ts.find? (fun t2 => t2.id == tid) = some t →
      (ts.map (fun t2 => if t2.id == tid then f t2 else t2)).find? (fun t2 => t2.id == tid)
        = some (f t) := by
  intro ts
  induction ts with
  | nil => intro t h; cases h
  | cons a ts ih =>
    intro t h
    rw [List.map_cons]
    by_cases ha : a.id = tid
    · have hb : (a.id == tid) = true := by simpa using ha
      simp only [List.find?_cons, hb] at h
      have hfa : ((f a).id == tid) = true := by simpa using hf a ha
      rw [if_pos hb]
      simp only [List.find?_cons, hfa]
      injection h with h1
      rw [h1]
    · have hb : (a.id == tid) = false := by simpa using ha
      simp only [List.find?_cons, hb] at h
      rw [if_neg (by simp [hb])]
      simp only [List.find?_cons, hb]
      exact ih t h

lemma getTaskObj_id {s : ManagerState} {tid : Nat} {t : Task}
    (h : getTaskObj s tid = some t) : t.id = tid := by
  have := List.find?_some h
  simpa using this

lemma getTaskObj_updateTaskObj_ne (s : ManagerState) (tid tid2 : Nat) (f : Task → Task)
    (hne : tid2 ≠ tid) (hf : ∀ t : Task, t.id = tid → (f t).id = tid) :
    getTaskObj (updateTaskObj s tid f) tid2 = getTaskObj s tid2 :=
  find?_update_ne tid tid2 f hne hf s.tasks

lemma getTaskObj_updateTaskObj_self {s : ManagerState} {tid : Nat} {t : Task}
    (f : Task → Task) (hf : ∀ t2 : Task, t2.id = tid → (f t2).id = tid)
    (h : getTaskObj s tid = some t) :
    getTaskObj (updateTaskObj s tid f) tid = some (f t) :=
  find?_update_self tid f hf s.tasks t h

/-- `startTask` only appends events/history writes, only appends (copies of)
`tid` to the running set and the live handlers, leaves the pending queue
alone, and leaves every other task object alone. -/
lemma startTask_mono (lookup : String → Option String) (tid : Nat) (s : ManagerState) :
    (∃ evs, (startTask lookup tid s).events = s.events ++ evs) ∧
    (∃ ws, (startTask lookup tid s).historyWrites = s.historyWrites ++ ws) ∧
    (∃ rs, (startTask lookup tid s).runningIds = s.runningIds ++ rs ∧ ∀ x ∈ rs, x = tid) ∧
    (startTask lookup tid s).pendingIds = s.pendingIds ∧
    (∀ tid2, tid2 ≠ tid → getTaskObj (startTask lookup tid s) tid2 = getTaskObj s tid2) := by
  cases hobj : getTaskObj s tid with
  | none =>
    have heq : startTask lookup tid s = s := by
      unfold startTask
      rw [hobj]
    rw [heq]
    exact ⟨⟨[], by simp⟩, ⟨[], by simp⟩, ⟨[], by simp, by simp⟩, rfl, fun _ _ => rfl⟩
  | some t =>
    have hid : t.id = tid := getTaskObj_id hobj
    cases hlk : lookup t.projectId with
    | none =>
      unfold startTask
      simp only [hobj, hlk]
      refine ⟨⟨_, rfl⟩, ⟨_, rfl⟩, ⟨[], by simp [updateTaskObj], by simp⟩, rfl,
        fun tid2 h2 => ?_⟩
      exact getTaskObj_updateTaskObj_ne s tid tid2 _ h2 (fun t3 _ => hid)
    | some p =>
      unfold startTask
      simp only [hobj, hlk]
      refine ⟨⟨_, rfl⟩, ⟨[], by simp [updateTaskObj]⟩, ⟨[tid], rfl, by simp⟩, rfl,
        fun tid2 h2 => ?_⟩
      exact getTaskObj_updateTaskObj_ne s tid tid2 _ h2 (fun t3 _ => hid)

/-- Unfolding equation for the admission loop when the queue is empty. -/
lemma processQueueAux_succ_nil (lookup : String → Option String) (fuel : Nat)
    (s : ManagerState) (h : s.pendingIds = []) :
    processQueueAux lookup (fuel + 1) s = s := by
  obtain ⟨tk, pd, rn, lv, ni, ck, ev, hw⟩ := s
  have h2 : pd = [] := h
  subst h2
  rfl

/-- Unfolding equation for the admission loop when the queue is nonempty. -/
lemma processQueueAux_succ_cons (lookup : String → Option String) (fuel : Nat)
    (s : ManagerState) (tid : Nat) (rest : List Nat) (h : s.pendingIds = tid :: rest) :
    processQueueAux lookup (fuel + 1) s =
      if s.runningIds.length < MAX_CONCURRENT_TASKS then
        processQueueAux lookup fuel (startTask lookup tid { s with pendingIds := rest })
      else s := by
  obtain ⟨tk, pd, rn, lv, ni, ck, ev, hw⟩ := s
  have h2 : pd = tid :: rest := h
  subst h2
  rfl

/-- The admission loop only appends events/history writes, only promotes ids
taken from the pending queue into the running set, leaves a suffix of the
pending queue, and leaves tasks not in the pending queue alone. -/
lemma processQueueAux_mono (lookup : String → Option String) :
    ∀ (fuel : Nat) (s : ManagerState),
      (∃ evs, (processQueueAux lookup fuel s).events = s.events ++ evs) ∧
      (∃ ws, (processQueueAux lookup fuel s).historyWrites = s.historyWrites ++ ws) ∧
      (∃ rs, (processQueueAux lookup fuel s).runningIds = s.runningIds ++ rs ∧
        ∀ x ∈ rs, x ∈ s.pendingIds) ∧
      (processQueueAux lookup fuel s).pendingIds <:+ s.pendingIds ∧
      (∀ tid2, tid2 ∉ s.pendingIds →
        getTaskObj (processQueueAux lookup fuel s) tid2 = getTaskObj s tid2) := by
  intro fuel
  induction fuel with
  | zero =>
    intro s
    have heq : processQueueAux lookup 0 s = s := rfl
    rw [heq]
    exact ⟨⟨[], by simp⟩, ⟨[], by simp⟩, ⟨[], by simp, by simp⟩,
      List.suffix_refl _, fun _ _ => rfl⟩
  | succ fuel ih =>
    intro s
    cases hpend : s.pendingIds with
    | nil =>
      rw [processQueueAux_succ_nil lookup fuel s hpend]
      refine ⟨⟨[], by simp⟩, ⟨[], by simp⟩, ⟨[], by simp, by simp⟩, ?_, fun _ _ => rfl⟩
      rw [hpend]
    | cons tid rest =>
      by_cases hcap : s.runningIds.length < MAX_CONCURRENT_TASKS
      · rw [processQueueAux_succ_cons lookup fuel s tid rest hpend, if_pos hcap]
        obtain ⟨⟨evs1, he1⟩, ⟨ws1, hw1⟩, ⟨rs1, hr1, hr1m⟩, hp1, hg1⟩ :=
          startTask_mono lookup tid { s with pendingIds := rest }
        obtain ⟨⟨evs2, he2⟩, ⟨ws2, hw2⟩, ⟨rs2, hr2, hr2m⟩, hp2, hg2⟩ :=
          ih (startTask lookup tid { s with pendingIds := rest })
        refine ⟨⟨evs1 ++ evs2, ?_⟩, ⟨ws1 ++ ws2, ?_⟩, ⟨rs1 ++ rs2, ?_, ?_⟩, ?_, ?_⟩
        · rw [he2, he1]
          simp
        · rw [hw2, hw1]
          simp
        · rw [hr2, hr1]
          simp
        · intro x hx
          rcases List.mem_append.mp hx with hx1 | hx2
          · rw [hr1m x hx1]
            exact List.mem_cons_self tid rest
          · have h3 : x ∈ (startTask lookup tid { s with pendingIds := rest }).pendingIds :=
              hr2m x hx2
            rw [hp1] at h3
            exact List.mem_cons_of_mem tid h3
        · have h1 := hp2
          rw [hp1] at h1
          exact h1.trans (List.suffix_cons tid rest)
        · intro tid2 h2
          have hne : tid2 ≠ tid := by
            intro he
            exact h2 (he ▸ List.mem_cons_self tid rest)
          have hnr : tid2 ∉ rest := fun hm => h2 (List.mem_cons_of_mem tid hm)
          have hnp1 : tid2 ∉ (startTask lookup tid { s with pendingIds := rest }).pendingIds := by
            rw [hp1]
            exact hnr
          rw [hg2 tid2 hnp1, hg1 tid2 hne]
          rfl
      · rw [processQueueAux_succ_cons lookup fuel s tid rest hpend, if_neg hcap]
        refine ⟨⟨[], by simp⟩, ⟨[], by simp⟩, ⟨[], by simp, by simp⟩, ?_, fun _ _ => rfl⟩
        rw [hpend]

/-- `processQueue` specializes `processQueueAux_mono`. -/
lemma processQueue_mono (lookup : String → Option String) (s : ManagerState) :
    (∃ evs, (processQueue lookup s).events = s.events ++ evs) ∧
    (∃ ws, (processQueue lookup s).historyWrites = s.historyWrites ++ ws) ∧
    (∃ rs, (processQueue lookup s).runningIds = s.runningIds ++ rs ∧
      ∀ x ∈ rs, x ∈ s.pendingIds) ∧
    (processQueue lookup s).pendingIds <:+ s.pendingIds ∧
    (∀ tid2, tid2 ∉ s.pendingIds →
      getTaskObj (processQueue lookup s) tid2 = getTaskObj s tid2) :=
  processQueueAux_mono lookup s.pendingIds.length s

lemma finalizeTask_id (code : Option Int) (now : Nat) (t : Task) :
    (finalizeTask code now t).id = t.id := by
  simp only [finalizeTask]
  split <;> rfl

/-- On a non-zero (or null) exit code, finalization marks the task failed,
leaves budget and output untouched, and sets the fallback error message
exactly when no (or only falsy empty) error text accumulated. -/
lemma finalizeTask_nonzero (code : Option Int) (now : Nat) (t : Task)
    (hcode : code ≠ some 0) :
    (finalizeTask code now t).status = TaskStatus.failed ∧
    (finalizeTask code now t).maxBudget = t.maxBudget ∧
    (finalizeTask code now t).output = t.output ∧
    (finalizeTask code now t).error =
      (if t.error = none ∨ t.error = some "" then
        some ("Process exited with code " ++ exitCodeStr code) else t.error) := by
  simp only [finalizeTask]
  rw [if_neg hcode]
  exact ⟨rfl, rfl, rfl, rfl⟩

/-- Unfolding equation for `handleExit` when the exit handler is still
attached and the captured task object is `t`. -/
lemma handleExit_eq_of_live (lookup : String → Option String) (tid : Nat)
    (code : Option Int) (s : ManagerState) (t : Task)
    (hlive : s.liveHandlers.contains tid = true)
    (hobj : getTaskObj s tid = some t) :
    handleExit lookup tid code s =
      processQueue lookup
        (exitFinalize tid code t { s with liveHandlers := s.liveHandlers.erase tid }) := by
  have hobj1 : getTaskObj { s with liveHandlers := s.liveHandlers.erase tid } tid = some t :=
    hobj
  unfold handleExit
  simp only [hlive, eq_self_iff_true, if_true, hobj1]

/-- The admission loop stops as soon as the running set is at capacity. -/
lemma processQueueAux_stuck (lookup : String → Option String) (fuel : Nat) (s : ManagerState)
    (h : ¬ s.runningIds.length < MAX_CONCURRENT_TASKS) :
    processQueueAux lookup fuel s = s := by
  cases fuel with
  | zero => rfl
  | succ n =>
    cases hpend : s.pendingIds with
    | nil => exact processQueueAux_succ_nil lookup n s hpend
    | cons tid rest => rw [processQueueAux_succ_cons lookup n s tid rest hpend, if_neg h]

lemma processQueue_full (lookup : String → Option String) (s : ManagerState)
    (h : ¬ s.runningIds.length < MAX_CONCURRENT_TASKS) :
    processQueue lookup s = s :=
  processQueueAux_stuck lookup s.pendingIds.length s h

/-- Unfolding equation for `startTask` when the task dereferences and the
project resolves. -/
lemma startTask_eq_run (lookup : String → Option String) (tid : Nat) (s : ManagerState)
    (t : Task) (p : String)
    (hobj : getTaskObj s tid = some t) (hlk : lookup t.projectId = some p) :
    startTask lookup tid s =
      (let t2 := runningTaskOf t s.clock
       let s2 := updateTaskObj s tid (fun _ => t2)
       { s2 with runningIds := s2.runningIds ++ [tid],
                 liveHandlers := s2.liveHandlers ++ [tid],
                 events := s2.events ++ [TaskEvent.started t2],
                 clock := s2.clock + 1 }) := by
  unfold startTask
  simp only [hobj, hlk]

/-- Unfolding equation for `cancelTask` on a running (non-pending) task. -/
lemma cancelTask_eq_running (lookup : String → Option String) (tid : Nat)
    (s : ManagerState) (t : Task)
    (hp : s.pendingIds.findIdx? (fun i => i == tid) = none)
    (hr : s.runningIds.contains tid = true)
    (hobj : getTaskObj s tid = some t) :
    cancelTask lookup tid s = (processQueue lookup (cancelFinalizeRunning tid t s), true) := by
  unfold cancelTask
  simp only [hp, hr, eq_self_iff_true, if_true, hobj]

lemma findIdx?_eq_none_of_forall {α : Type _} (p : α → Bool) :
    ∀ (l : List α), (∀ x ∈ l, p x = false) → l.findIdx? p = none := by
  intro l
  induction l with
  | nil => intro _; rfl
  | cons a l ih =>
    intro h
    rw [List.findIdx?_cons, List.findIdx?_succ]
    rw [h a (List.mem_cons_self a l)]
    simp [ih (fun x hx => h x (List.mem_cons_of_mem a hx))]

lemma find?_isSome_of_mem {α : Type _} (p : α → Bool) :
    ∀ (l : List α), (∃ x ∈ l, p x = true) → ∃ y, l.find? p = some y ∧ p y = true := by
  intro l
  induction l with
  | nil => rintro ⟨x, hx, _⟩; cases hx
  | cons a l ih =>
    rintro ⟨x, hx, hpx⟩
    by_cases hpa : p a = true
    · exact ⟨a, List.find?_cons_of_pos _ hpa, hpa⟩
    · rcases List.mem_cons.mp hx with rfl | hxl
      · exact absurd hpx hpa
      · obtain ⟨y, hy, hpy⟩ := ih ⟨x, hxl, hpx⟩
        exact ⟨y, by rw [List.find?_cons_of_neg _ hpa]; exact hy, hpy⟩

/-- Any id present in the heap dereferences to a task carrying that id. -/
lemma getTaskObj_of_id_mem (s : ManagerState) (tid : Nat)
    (h : tid ∈ s.tasks.map Task.id) : ∃ t, getTaskObj s tid = some t ∧ t.id = tid := by
  obtain ⟨t0, ht0, hid0⟩ := List.mem_map.mp h
  obtain ⟨t, ht, hpt⟩ := find?_isSome_of_mem (fun t2 => t2.id == tid) s.tasks
    ⟨t0, ht0, by simpa using hid0⟩
  exact ⟨t, ht, by simpa using hpt⟩

/-- An id-preserving heap update does not change the id multiset. -/
lemma updateTaskObj_ids (s : ManagerState) (tid : Nat) (f : Task → Task)
    (hf : ∀ t : Task, t.id = tid → (f t).id = t.id) :
    (updateTaskObj s tid f).tasks.map Task.id = s.tasks.map Task.id := by
  show (s.tasks.map fun t => if t.id == tid then f t else t).map Task.id = _
  rw [List.map_map]
  apply List.map_congr_left
  intro t ht
  by_cases h : t.id = tid
  · simp [Function.comp, h, hf t h]
  · simp [Function.comp, h]

lemma startedIds_append (evs1 evs2 : List TaskEvent) :
    startedIds (evs1 ++ evs2) = startedIds evs1 ++ startedIds evs2 := by
  simp [startedIds, List.filterMap_append]

/-- The tail of the FIFO queue after the first three submissions. -/
lemma range_drop_three (k : Nat) (h3 : 3 ≤ k) :
    (List.range k).drop 3 = List.range' 3 (k - 3) := by
  have h0 : List.range' 0 3 ++ List.range' 3 (k - 3) = List.range' 0 k := by
    have h1 := List.range'_append 0 3 (k - 3) 1
    simp only [Nat.mul_one, Nat.zero_add, Nat.one_mul] at h1
    rw [h1]
    congr 1
    omega
  rw [List.range_eq_range', ← h0,
    List.drop_append_of_le_length (by simp [List.length_range'])]
  have h2 : (List.range' 0 3).drop 3 = [] :=
    List.drop_eq_nil_of_le (by simp [List.length_range'])
  rw [h2, List.nil_append]

lemma createsInv_zero : CreatesInv 0 initState :=
  ⟨rfl, rfl, rfl, rfl, rfl, rfl⟩

/-- One submission against an all-resolving project lookup advances the
`CreatesInv` shape: below capacity the new task is admitted immediately,
at capacity it queues. -/
lemma createsInv_step (path : String → String) (input : CreateTaskInput) (k : Nat)
    (s : ManagerState) (h : CreatesInv k s) :
    CreatesInv (k + 1) (step (allProjects path) s (Action.create input)) := by
  obtain ⟨hids, hrun, hpend, hlive, hnext, hstart⟩ := h
  have hc : createTask (allProjects path) input s =
      Except.ok (processQueue (allProjects path) (enqueueTask s input), mkTask s input) := rfl
  have hstep : step (allProjects path) s (Action.create input) =
      processQueue (allProjects path) (enqueueTask s input) := by
    simp only [step, hc]
  rw [hstep]
  have e1 : (enqueueTask s input).tasks.map Task.id = List.range (k + 1) := by
    show (s.tasks ++ [mkTask s input]).map Task.id = _
    rw [List.map_append, hids, List.range_succ]
    simp [mkTask, hnext]
  have e2 : (enqueueTask s input).pendingIds = (List.range k).drop 3 ++ [k] := by
    show s.pendingIds ++ [(mkTask s input).id] = _
    rw [hpend]
    simp [mkTask, hnext]
  have e3 : (enqueueTask s input).runningIds = List.range (min k 3) := hrun
  have e4 : (enqueueTask s input).liveHandlers = List.range (min k 3) := hlive
  have e5 : (enqueueTask s input).nextId = k + 1 := by
    show s.nextId + 1 = k + 1
    rw [hnext]
  have e6 : startedIds (enqueueTask s input).events = List.range (min k 3) := by
    show startedIds (s.events ++ [TaskEvent.created (mkTask s input)]) = _
    rw [startedIds_append, hstart]
    simp [startedIds]
  rcases Nat.lt_or_ge k 3 with hk | hk
  · -- below capacity: the admission cycle starts the new task immediately
    have hmin : min k 3 = k := Nat.min_eq_left (by omega)
    have e2b : (enqueueTask s input).pendingIds = [k] := by
      rw [e2, List.drop_eq_nil_of_le (by rw [List.length_range]; omega), List.nil_append]
    have hobj : getTaskObj { enqueueTask s input with pendingIds := ([] : List Nat) } k
        = some (mkTask s input) := by
      show (s.tasks ++ [mkTask s input]).find? (fun t => t.id == k) = some (mkTask s input)
      rw [List.find?_append]
      have hnone : s.tasks.find? (fun t => t.id == k) = none := by
        rw [List.find?_eq_none]
        intro x hx
        have hxk : x.id ∈ List.range k := by
          rw [← hids]
          exact List.mem_map_of_mem Task.id hx
        have hlt : x.id < k := List.mem_range.mp hxk
        simp
        omega
      rw [hnone, Option.none_or]
      apply List.find?_cons_of_pos
      simp [mkTask, hnext]
    have hlen : (enqueueTask s input).pendingIds.length = 0 + 1 := by
      rw [e2b]
      rfl
    unfold processQueue
    rw [hlen, processQueueAux_succ_cons (allProjects path) 0 _ k [] e2b,
      if_pos (by
        rw [e3, hmin, List.length_range]
        simp only [MAX_CONCURRENT_TASKS]
        omega)]
    show CreatesInv (k + 1)
      (startTask (allProjects path) k { enqueueTask s input with pendingIds := ([] : List Nat) })
    rw [startTask_eq_run (allProjects path) k _ (mkTask s input)
      (path (mkTask s input).projectId) hobj rfl]
    set sProm : ManagerState := { enqueueTask s input with pendingIds := ([] : List Nat) }
      with hsProm
    have hf : ∀ t : Task, t.id = k →
        (runningTaskOf (mkTask s input) sProm.clock).id = t.id := by
      intro t ht
      rw [ht]
      show s.nextId = k
      exact hnext
    have hid2 : (runningTaskOf (mkTask s input) sProm.clock).id = k := hnext
    refine ⟨?_, ?_, ?_, ?_, ?_, ?_⟩
    · rw [updateTaskObj_ids sProm k _ hf]
      exact e1
    · show (enqueueTask s input).runningIds ++ [k] = _
      rw [e3, hmin, ← List.range_succ, Nat.min_eq_left (by omega)]
    · exact (List.drop_eq_nil_of_le (by rw [List.length_range]; omega)).symm
    · show (enqueueTask s input).liveHandlers ++ [k] = _
      rw [e4, hmin, ← List.range_succ, Nat.min_eq_left (by omega)]
    · show (enqueueTask s input).nextId = k + 1
      exact e5
    · show startedIds ((enqueueTask s input).events ++
        [TaskEvent.started (runningTaskOf (mkTask s input) sProm.clock)]) = _
      rw [startedIds_append, e6, hmin]
      rw [show startedIds [TaskEvent.started (runningTaskOf (mkTask s input) sProm.clock)] =
        [(runningTaskOf (mkTask s input) sProm.clock).id] from rfl]
      rw [hid2, ← List.range_succ, Nat.min_eq_left (by omega)]
  · -- at capacity: the admission cycle leaves the queue alone
    have hmin : min k 3 = 3 := Nat.min_eq_right hk
    have hmin1 : min (k + 1) 3 = 3 := Nat.min_eq_right (by omega)
    have hfull : ¬ (enqueueTask s input).runningIds.length < MAX_CONCURRENT_TASKS := by
      rw [e3, hmin, List.length_range]
      decide
    rw [processQueue_full _ _ hfull]
    refine ⟨e1, ?_, ?_, ?_, e5, ?_⟩
    · rw [e3, hmin, hmin1]
    · rw [e2, List.range_succ,
        List.drop_append_of_le_length (by rw [List.length_range]; omega)]
    · rw [e4, hmin, hmin1]
    · rw [e6, hmin, hmin1]

/-- Folding any number of submissions preserves the `CreatesInv` shape. -/
lemma createsInv_run (path : String → String) (inputs : List CreateTaskInput) :
    ∀ (k : Nat) (s : ManagerState), CreatesInv k s →
      CreatesInv (k + inputs.length) (run (allProjects path) s (inputs.map Action.create)) := by
  induction inputs with
  | nil =>
    intro k s h
    simpa using h
  | cons i is ih =>
    intro k s h
    have h1 := createsInv_step path i k s h
    have h2 := ih (k + 1) (step (allProjects path) s (Action.create i)) h1
    have he : run (allProjects path) s ((i :: is).map Action.create) =
        run (allProjects path) (step (allProjects path) s (Action.create i))
          (is.map Action.create) := rfl
    rw [he]
    have hk : k + (i :: is).length = (k + 1) + is.length := by
      simp [List.length_cons]
      omega
    rw [hk]
    exact h2

lemma startedIds_cancelFinalize (tid : Nat) (t : Task) (s : ManagerState) :
    startedIds (cancelFinalizeRunning tid t s).events = startedIds s.events := by
  show startedIds (s.events ++ [TaskEvent.cancelled _]) = _
  rw [startedIds_append]
  simp [startedIds]

lemma startedIds_exitFinalize (tid : Nat) (code : Option Int) (t : Task) (s : ManagerState) :
    startedIds (exitFinalize tid code t s).events = startedIds s.events := by
  show startedIds (s.events ++
    [if code = some 0 then TaskEvent.completed _ else TaskEvent.failed _]) = _
  rw [startedIds_append]
  by_cases hc : code = some 0 <;> simp [hc, startedIds]

/-- From any state with two running tasks, heap ids 0..k-1 and FIFO queue
3..k-1 (k ≥ 4), the admission cycle starts exactly the queue head — task 3 —
and then stops, the running set being full again. -/
lemma promote_next (path : String → String) (k : Nat) (hk : 4 ≤ k) (s : ManagerState)
    (hids : s.tasks.map Task.id = List.range k)
    (hrun2 : s.runningIds.length = 2)
    (hpend : s.pendingIds = List.range' 3 (k - 3)) :
    startedIds (processQueue (allProjects path) s).events = startedIds s.events ++ [3] := by
  have hp2 : s.pendingIds = 3 :: List.range' 4 (k - 4) := by
    rw [hpend, show k - 3 = (k - 4) + 1 from by omega, List.range'_succ]
  obtain ⟨t3, hobj3, hid3⟩ := getTaskObj_of_id_mem s 3 (by
    rw [hids]
    exact List.mem_range.mpr (by omega))
  have hlen : s.pendingIds.length = (k - 4) + 1 := by
    rw [hp2]
    simp [List.length_range']
  unfold processQueue
  rw [hlen, processQueueAux_succ_cons (allProjects path) (k - 4) s 3 (List.range' 4 (k - 4)) hp2,
    if_pos (by rw [hrun2]; decide)]
  set sMid : ManagerState := { s with pendingIds := List.range' 4 (k - 4) } with hsMid
  have hobj3b : getTaskObj sMid 3 = some t3 := hobj3
  have h1 := startTask_eq_run (allProjects path) 3 sMid t3 (path t3.projectId) hobj3b rfl
  have h2 : ¬ (startTask (allProjects path) 3 sMid).runningIds.length
      < MAX_CONCURRENT_TASKS := by
    rw [h1]
    show ¬ (s.runningIds ++ [3]).length < MAX_CONCURRENT_TASKS
    rw [List.length_append, hrun2]
    decide
  rw [processQueueAux_stuck (allProjects path) (k - 4)
    (startTask (allProjects path) 3 sMid) h2]
  rw [h1]
  show startedIds (s.events ++ [TaskEvent.started (runningTaskOf t3 sMid.clock)]) = _
  rw [startedIds_append]
  rw [show startedIds [TaskEvent.started (runningTaskOf t3 sMid.clock)] =
    [(runningTaskOf t3 sMid.clock).id] from rfl]
  rw [show (runningTaskOf t3 sMid.clock).id = 3 from hid3]

lemma findIdx?_isSome_of_mem {α : Type _} (p : α → Bool) :
    ∀ (l : List α), (∃ x ∈ l, p x = true) → (l.findIdx? p).isSome = true := by
  intro l
  induction l with
  | nil => rintro ⟨x, hx, _⟩; cases hx
  | cons a l ih =>
    rintro ⟨x, hx, hpx⟩
    rw [List.findIdx?_cons]
    split
    · rfl
    · rename_i hpa
      rw [List.findIdx?_succ]
      rcases List.mem_cons.mp hx with hxa | hxl
      · subst hxa; exact absurd hpx (by simpa using hpa)
      · have h2 := ih ⟨x, hxl, hpx⟩
        cases hfound : l.findIdx? p with
        | none => rw [hfound] at h2; cases h2
        | some i => rfl

/-- Unfolding equation for `replaceOrAppend` on a cons cell. -/
lemma replaceOrAppend_cons (t : Task) (ts : List Task) (task : Task) :
    replaceOrAppend (t :: ts) task =
      if t.id == task.id then task :: ts else t :: replaceOrAppend ts task := by
  unfold replaceOrAppend
  rw [List.findIdx?_cons, List.findIdx?_succ]
  by_cases hpt : t.id = task.id
  · have hb : (t.id == task.id) = true := by simpa using hpt
    rw [hb]
    simp
  · have hb : (t.id == task.id) = false := by simpa using hpt
    rw [hb]
    cases hfound : ts.findIdx? (fun x => x.id == task.id) with
    | none => simp
    | some i => simp [List.set_cons_succ]

lemma countP_replaceOrAppend (task : Task) :
    ∀ (tasks : List Task), (tasks.map Task.id).Nodup →
      task.id ∈ tasks.map Task.id →
      (replaceOrAppend tasks task).countP (fun t => t.id == task.id) = 1 := by
  intro tasks
  induction tasks with
  | nil => intro _ hmem; simp at hmem
  | cons t ts ih =>
    intro hnd hmem
    rw [List.map_cons, List.nodup_cons] at hnd
    rw [replaceOrAppend_cons]
    by_cases hid : t.id = task.id
    · have hb : (t.id == task.id) = true := by simpa using hid
      rw [hb, if_pos rfl, List.countP_cons]
      have hzero : ts.countP (fun t2 => t2.id == task.id) = 0 := by
        rw [List.countP_eq_zero]
        intro a ha hpa
        have hpa2 : a.id = task.id := by simpa using hpa
        exact hnd.1 (List.mem_map.mpr ⟨a, ha, hpa2.trans hid.symm⟩)
      simp [hzero]
    · have hb : (t.id == task.id) = false := by simpa using hid
      rw [hb]
      simp only [Bool.false_eq_true, if_false, List.countP_cons]
      have hmem2 : task.id ∈ ts.map Task.id := by
        rcases List.mem_cons.mp (by simpa using hmem : task.id ∈ t.id :: ts.map Task.id) with h1 | h2
        · exact absurd h1.symm hid
        · exact h2
      simp [ih hnd.2 hmem2, hid]

lemma truncateHistory_of_le {tasks : List Task} (hle : tasks.length ≤ 100) :
    truncateHistory tasks = tasks := by
  unfold truncateHistory
  rw [if_neg (by omega)]

lemma mem_ids_replaceOrAppend (task : Task) :
    ∀ (tasks : List Task) (x : Nat), x ∈ (replaceOrAppend tasks task).map Task.id →
      x ∈ tasks.map Task.id ∨ x = task.id := by
  intro tasks
  induction tasks with
  | nil =>
    intro x hx
    simp [replaceOrAppend] at hx
    exact Or.inr hx
  | cons t ts ih =>
    intro x hx
    rw [replaceOrAppend_cons] at hx
    by_cases hid : t.id = task.id
    · have hb : (t.id == task.id) = true := by simpa using hid
      rw [hb, if_pos rfl, List.map_cons] at hx
      rcases List.mem_cons.mp hx with h1 | h2
      · exact Or.inr h1
      · exact Or.inl (List.mem_cons_of_mem _ h2)
    · have hb : (t.id == task.id) = false := by simpa using hid
      rw [hb] at hx
      simp only [Bool.false_eq_true, if_false, List.map_cons] at hx
      rcases List.mem_cons.mp hx with h1 | h2
      · exact Or.inl (h1 ▸ List.mem_cons_self _ _)
      · rcases ih x h2 with h3 | h3
        · exact Or.inl (List.mem_cons_of_mem _ h3)
        · exact Or.inr h3

lemma nodup_replaceOrAppend (task : Task) :
    ∀ tasks : List Task, (tasks.map Task.id).Nodup →
      ((replaceOrAppend tasks task).map Task.id).Nodup := by
  intro tasks
  induction tasks with
  | nil =>
    intro _
    simp [replaceOrAppend]
  | cons t ts ih =>
    intro hnd
    rw [List.map_cons, List.nodup_cons] at hnd
    rw [replaceOrAppend_cons]
    by_cases hid : t.id = task.id
    · have hb : (t.id == task.id) = true := by simpa using hid
      rw [hb, if_pos rfl, List.map_cons, List.nodup_cons]
      exact ⟨hid ▸ hnd.1, hnd.2⟩
    · have hb : (t.id == task.id) = false := by simpa using hid
      rw [hb]
      simp only [Bool.false_eq_true, if_false, List.map_cons, List.nodup_cons]
      refine ⟨fun hmem => ?_, ih hnd.2⟩
      rcases mem_ids_replaceOrAppend task ts t.id hmem with h1 | h1
      · exact hnd.1 h1
      · exact hid h1

/-- The two history invariants assumed by the same-ID overwrite property are
themselves maintained by every `addTaskToHistory` call — ids stay unique and
the length stays at most 100 — so both hold of every history the sink
builds from the empty file. -/
lemma addTaskToHistory_preserves_inv (now : Nat) (h : TaskHistory) (task : Task)
    (hnd : (h.tasks.map Task.id).Nodup) :
    ((addTaskToHistory now h task).tasks.map Task.id).Nodup ∧
    (addTaskToHistory now h task).tasks.length ≤ 100 := by
  constructor
  · show ((truncateHistory (replaceOrAppend h.tasks task)).map Task.id).Nodup
    have h1 : ((replaceOrAppend h.tasks task).map Task.id).Nodup :=
      nodup_replaceOrAppend task h.tasks hnd
    unfold truncateHistory
    split
    · rw [List.map_drop]
      exact h1.sublist (List.drop_sublist _ _)
    · exact h1
  · show (truncateHistory (replaceOrAppend h.tasks task)).length ≤ 100
    unfold truncateHistory
    split
    · rw [List.length_drop]
      omega
    · omega

/-! ## Claims about the history sink -/

/-- C9: `addTaskToHistory` is idempotent under same-ID overwrite: on any
history the sink can have built (ids unique, at most 100 entries), adding a
task whose ID already appears replaces the prior entry in place at the found
index — the length does not grow — and exactly one entry with that ID
remains. -/
theorem c9_history_overwrite (now : Nat) (h : TaskHistory) (task : Task)
    (hnd : (h.tasks.map Task.id).Nodup)
    (hlen : h.tasks.length ≤ 100)
    (hmem : task.id ∈ h.tasks.map Task.id) :
    (∃ i, h.tasks.findIdx? (fun t => t.id == task.id) = some i ∧
        (addTaskToHistory now h task).tasks = h.tasks.set i task) ∧
    (addTaskToHistory now h task).tasks.length = h.tasks.length ∧
    (addTaskToHistory now h task).tasks.countP (fun t => t.id == task.id) = 1 := by
  have hsome : (h.tasks.findIdx? (fun t => t.id == task.id)).isSome = true := by
    apply findIdx?_isSome_of_mem
    obtain ⟨t, ht, hid⟩ := List.mem_map.mp hmem
    exact ⟨t, ht, by simpa using hid⟩
  obtain ⟨i, hi⟩ := Option.isSome_iff_exists.mp hsome
  have hrep : replaceOrAppend h.tasks task = h.tasks.set i task := by
    unfold replaceOrAppend
    rw [hi]
  have hlen2 : (replaceOrAppend h.tasks task).length = h.tasks.length := by
    rw [hrep, List.length_set]
  have htasks : (addTaskToHistory now h task).tasks = replaceOrAppend h.tasks task := by
    show truncateHistory (replaceOrAppend h.tasks task) = _
    exact truncateHistory_of_le (by omega)
  refine ⟨⟨i, hi, by rw [htasks, hrep]⟩, by rw [htasks, hlen2], ?_⟩
  rw [htasks]
  exact countP_replaceOrAppend task h.tasks hnd hmem

/-- C9 witness: a two-entry history in which the completed version of task 0
overwrites the pending one in place. -/
theorem c9_witness :
    (([{ id := 0, projectId := "p", prompt := "a", status := TaskStatus.pending,
         maxBudget := none, createdAt := 0, startedAt := none, completedAt := none,
         costUsd := none, durationMs := none, output := "", error := none },
       { id := 1, projectId := "p", prompt := "b", status := TaskStatus.pending,
         maxBudget := none, createdAt := 0, startedAt := none, completedAt := none,
         costUsd := none, durationMs := none, output := "", error := none }] :
        List Task).map Task.id).Nodup ∧
    (addTaskToHistory 5
      { tasks :=
          [{ id := 0, projectId := "p", prompt := "a", status := TaskStatus.pending,
             maxBudget := none, createdAt := 0, startedAt := none, completedAt := none,
             costUsd := none, durationMs := none, output := "", error := none },
           { id := 1, projectId := "p", prompt := "b", status := TaskStatus.pending,
             maxBudget := none, createdAt := 0, startedAt := none, completedAt := none,
             costUsd := none, durationMs := none, output := "", error := none }],
        lastUpdated := 0 }
      { id := 0, projectId := "p", prompt := "a", status := TaskStatus.completed,
        maxBudget := none, createdAt := 0, startedAt := none, completedAt := none,
        costUsd := none, durationMs := none, output := "done", error := none }).tasks.length = 2 := by
  constructor
  · decide
  · exact (c9_history_overwrite 5 _ _ (by decide) (by decide) (by decide)).2.1.trans (by decide)

/-- C10: after every `addTaskToHistory` call the persisted history holds at
most 100 tasks; the result is exactly the most recent 100 entries of the
replaced-or-appended list, so the oldest entries beyond 100 are discarded. -/
theorem c10_history_capped (now : Nat) (h : TaskHistory) (task : Task) :
    (addTaskToHistory now h task).tasks.length ≤ 100 ∧
    (addTaskToHistory now h task).tasks =
      (replaceOrAppend h.tasks task).drop ((replaceOrAppend h.tasks task).length - 100) := by
  constructor
  · show (truncateHistory (replaceOrAppend h.tasks task)).length ≤ 100
    unfold truncateHistory
    split
    · rw [List.length_drop]; omega
    · omega
  · show truncateHistory (replaceOrAppend h.tasks task) = _
    unfold truncateHistory
    split
    · rfl
    · rename_i hle
      have hz : (replaceOrAppend h.tasks task).length - 100 = 0 := by omega
      rw [hz, List.drop_zero]

/-! ## Claims about the process supervisor -/

/-- C5: for every start of a worker with a given positive budget b, the
supervisor passes `--max-turns` set to max(25, ceil(b * 10)); when no budget
is given, no `--max-turns` argument is passed. -/
theorem c5_max_turns_argument (o : SpawnOptions) :
    (∀ b : Rat, o.maxBudget = some b → 0 < b →
      spawnArgs o = ["-p", o.prompt, "--dangerously-skip-permissions",
        "--max-turns", toString (max 25 ⌈b * 10⌉), "--verbose"]) ∧
    (o.maxBudget = none →
      spawnArgs o = ["-p", o.prompt, "--dangerously-skip-permissions", "--verbose"]) := by
  constructor
  · intro b hb hpos
    simp [spawnArgs, budgetArgs, hb, maxTurnsFor, hpos.ne']
  · intro hb
    simp [spawnArgs, budgetArgs, hb]

/-- C5 witness: budget 1.0 floors at 25 turns; budget 10 scales to 100; no
budget passes no `--max-turns`. -/
theorem c5_witness :
    spawnArgs { cwd := "/w", prompt := "Fix bug", maxBudget := some 1 } =
      ["-p", "Fix bug", "--dangerously-skip-permissions", "--max-turns", "25", "--verbose"] ∧
    spawnArgs { cwd := "/w", prompt := "Fix bug", maxBudget := some 10 } =
      ["-p", "Fix bug", "--dangerously-skip-permissions", "--max-turns", "100", "--verbose"] ∧
    spawnArgs { cwd := "/w", prompt := "Fix bug", maxBudget := none } =
      ["-p", "Fix bug", "--dangerously-skip-permissions", "--verbose"] := by
  refine ⟨?_, ?_, ?_⟩
  · rw [(c5_max_turns_argument { cwd := "/w", prompt := "Fix bug", maxBudget := some 1 }).1
      1 rfl one_pos]
    norm_num
    decide
  · rw [(c5_max_turns_argument { cwd := "/w", prompt := "Fix bug", maxBudget := some 10 }).1
      10 rfl (by norm_num)]
    norm_num
    decide
  · exact (c5_max_turns_argument { cwd := "/w", prompt := "Fix bug", maxBudget := none }).2 rfl

lemma countExits_emittedEvents (es : List ChildEvent) :
    countExits (emittedEvents es) = es.countP isTerminalChildEvent := by
  induction es with
  | nil => rfl
  | cons e es ih =>
    cases e <;>
      simp [emittedEvents, onChildEvent, countExits, List.countP_append, List.countP_cons,
        isTerminalChildEvent, isExitEvent] at ih ⊢ <;> omega

/-- C6: on a spawn-level failure the supervisor emits `error(message)` and
then `exit(1, null)`; over any raw stream carrying exactly one terminal
child event (a native exit or a spawn error), exactly one `exit` is emitted,
so callers see exactly one terminal notification regardless of failure kind. -/
theorem c6_spawn_failure_events (es : List ChildEvent) (msg : String) :
    (es = [ChildEvent.spawnError msg] →
      emittedEvents es = [ProcEvent.error msg, ProcEvent.exit (some 1) none]) ∧
    (es.countP isTerminalChildEvent = 1 → countExits (emittedEvents es) = 1) := by
  constructor
  · intro h
    subst h
    rfl
  · intro h
    rw [countExits_emittedEvents]
    exact h

/-- C6 witness: the ENOENT spawn failure produces exactly `error` then
`exit(1, null)`, a single terminal notification. -/
theorem c6_witness :
    emittedEvents [ChildEvent.spawnError "spawn claude ENOENT"] =
      [ProcEvent.error "spawn claude ENOENT", ProcEvent.exit (some 1) none] ∧
    countExits (emittedEvents [ChildEvent.spawnError "spawn claude ENOENT"]) = 1 := by
  exact ⟨(c6_spawn_failure_events [ChildEvent.spawnError "spawn claude ENOENT"]
      "spawn claude ENOENT").1 rfl,
    (c6_spawn_failure_events [ChildEvent.spawnError "spawn claude ENOENT"]
      "spawn claude ENOENT").2 (by decide)⟩

/-- C7: code bug.  `isRunning()` is false before `start()` and true after it,
but after the process terminates by a normal exit (no `kill()` issued) it
still returns true: the source consults only `process.killed`, which Node
sets only when `kill()` sends a signal, never on exit.  The claim (and §4.1
of the spec) requires false after any termination. -/
theorem c7_isRunning_bug :
    isRunning ProcState.init = false ∧
    isRunning (procStep ProcState.init ProcAction.start) = true ∧
    (procStep (procStep ProcState.init ProcAction.start) ProcAction.exited).procExited = true ∧
    isRunning (procStep (procStep ProcState.init ProcAction.start) ProcAction.exited) = true := by
  decide

/-! ## Claims about the task lifecycle engine -/

/-- C8: `createTask` with an unresolvable project rejects with
"Project not found" before any mutation — no task, no state change, no event;
with a resolvable project it constructs a pending task with a fresh unique id
and empty output, appends it to the pending queue, emits `task:created` as the
first new event, and then runs the admission cycle. -/
theorem c8_createTask (lookup : String → Option String) (input : CreateTaskInput)
    (s : ManagerState) (hwf : ∀ t ∈ s.tasks, t.id < s.nextId) :
    (lookup input.projectId = none →
      createTask lookup input s = Except.error ("Project not found: " ++ input.projectId) ∧
      step lookup s (Action.create input) = s) ∧
    (∀ p, lookup input.projectId = some p →
      createTask lookup input s =
        Except.ok (processQueue lookup (enqueueTask s input), mkTask s input) ∧
      (mkTask s input).status = TaskStatus.pending ∧
      (mkTask s input).output = "" ∧
      (mkTask s input).id = s.nextId ∧
      (∀ t ∈ s.tasks, t.id ≠ (mkTask s input).id) ∧
      (enqueueTask s input).pendingIds = s.pendingIds ++ [(mkTask s input).id] ∧
      (enqueueTask s input).events = s.events ++ [TaskEvent.created (mkTask s input)] ∧
      (∃ evs, (processQueue lookup (enqueueTask s input)).events =
        s.events ++ TaskEvent.created (mkTask s input) :: evs)) := by
  constructor
  · intro hnone
    have hc : createTask lookup input s =
        Except.error ("Project not found: " ++ input.projectId) := by
      unfold createTask
      rw [hnone]
    refine ⟨hc, ?_⟩
    simp only [step, hc]
  · intro p hp
    have hc : createTask lookup input s =
        Except.ok (processQueue lookup (enqueueTask s input), mkTask s input) := by
      unfold createTask
      rw [hp]
    refine ⟨hc, rfl, rfl, rfl, fun t ht => Nat.ne_of_lt (hwf t ht), rfl, rfl, ?_⟩
    obtain ⟨⟨evs, he⟩, _⟩ := processQueue_mono lookup (enqueueTask s input)
    refine ⟨evs, ?_⟩
    rw [he]
    simp [enqueueTask]

/-- C8 witness: on an empty engine, a bad project id rejects and leaves the
state untouched; a good one yields a pending task with id 0. -/
theorem c8_witness :
    createTask (fun pid => if pid = "p1" then some "/w" else none)
        { projectId := "gone", prompt := "fix", maxBudget := none } initState =
      Except.error ("Project not found: " ++ "gone") ∧
    step (fun pid => if pid = "p1" then some "/w" else none) initState
        (Action.create { projectId := "gone", prompt := "fix", maxBudget := none }) =
      initState ∧
    (mkTask initState { projectId := "p1", prompt := "fix", maxBudget := none }).status =
      TaskStatus.pending ∧
    (mkTask initState { projectId := "p1", prompt := "fix", maxBudget := none }).id = 0 := by
  have h1 := (c8_createTask (fun pid => if pid = "p1" then some "/w" else none)
      { projectId := "gone", prompt := "fix", maxBudget := none } initState
      (by intro t ht; simp [initState] at ht)).1 (by decide)
  have h2 := (c8_createTask (fun pid => if pid = "p1" then some "/w" else none)
      { projectId := "p1", prompt := "fix", maxBudget := none } initState
      (by intro t ht; simp [initState] at ht)).2 "/w" (by decide)
  exact ⟨h1.1, h1.2, h2.2.1, h2.2.2.2.1⟩

/-- C1: code bug — the budget-exceeded retry policy the repository's own
TaskManager test suite specifies (a `task:retrying` event, `retryCount`
incremented, `maxBudget` doubled from 2.0 to 4.0 with a second process
spawned, bounded by MAX_RETRIES = 2) is missing from the task manager
implementation.  Evaluating the code at the failing input — a task submitted
with budget 2.0 whose process writes the budget-exceeded signal
"max_turns limit reached" to stderr and then exits with code 1 — shows the
actual behavior: the task is finalized as failed on the first such failure,
its `maxBudget` is still 2 (not doubled to 4), only one process was ever
started (no retry spawn), and the failure is persisted immediately.  The
implementation has no retry path at all: the Task model has no retry
counter and the engine's event union has no `retrying` variant, so no
`task:retrying` event can ever be emitted. -/
theorem c1_missing_retry_bug :
    (getTaskObj (run (fun _ => some "/w") initState
        [Action.create { projectId := "p", prompt := "fix", maxBudget := some 2 },
         Action.procStderr 0 "max_turns limit reached",
         Action.procExit 0 (some 1)]) 0).map Task.status = some TaskStatus.failed ∧
    (getTaskObj (run (fun _ => some "/w") initState
        [Action.create { projectId := "p", prompt := "fix", maxBudget := some 2 },
         Action.procStderr 0 "max_turns limit reached",
         Action.procExit 0 (some 1)]) 0).map Task.maxBudget = some (some 2) ∧
    startedIds (run (fun _ => some "/w") initState
        [Action.create { projectId := "p", prompt := "fix", maxBudget := some 2 },
         Action.procStderr 0 "max_turns limit reached",
         Action.procExit 0 (some 1)]).events = [0] ∧
    (run (fun _ => some "/w") initState
        [Action.create { projectId := "p", prompt := "fix", maxBudget := some 2 },
         Action.procStderr 0 "max_turns limit reached",
         Action.procExit 0 (some 1)]).historyWrites.length = 1 := by
  refine ⟨?_, ?_, ?_, ?_⟩ <;> rfl

/-- What the exit handler actually does on any non-zero (or null) exit code
for a task whose handler is live, regardless of any budget-exceeded text in
the accumulated output or error: the task is unconditionally finalized as
failed in one step — status failed, budget and output unchanged, the error
text defaulted to "Process exited with code N" only when empty, one
`task:failed` event emitted, one history persistence recorded, the task
removed from the running set — and the admission cycle runs.  There is no
branch inspecting the output or error text and no re-entry into the running
state. -/
lemma handleExit_nonzero_fails (lookup : String → Option String)
    (s : ManagerState) (tid : Nat) (code : Option Int) (t : Task)
    (hlive : s.liveHandlers.contains tid = true)
    (hcode : code ≠ some 0)
    (hobj : getTaskObj s tid = some t)
    (hpend : tid ∉ s.pendingIds)
    (hnodup : s.runningIds.Nodup) :
    ∃ t2, getTaskObj (handleExit lookup tid code s) tid = some t2 ∧
      t2.status = TaskStatus.failed ∧
      t2.maxBudget = t.maxBudget ∧
      t2.output = t.output ∧
      t2.error = (if t.error = none ∨ t.error = some "" then
          some ("Process exited with code " ++ exitCodeStr code) else t.error) ∧
      (s.events ++ [TaskEvent.failed t2]) <+: (handleExit lookup tid code s).events ∧
      (s.historyWrites ++ [t2]) <+: (handleExit lookup tid code s).historyWrites ∧
      tid ∉ (handleExit lookup tid code s).runningIds := by
  have hid : t.id = tid := getTaskObj_id hobj
  have hmain := handleExit_eq_of_live lookup tid code s t hlive hobj
  set s1 : ManagerState := { s with liveHandlers := s.liveHandlers.erase tid } with hs1
  set t2 : Task := finalizeTask code s1.clock t with ht2
  have ht2id : t2.id = tid := by rw [ht2, finalizeTask_id, hid]
  obtain ⟨hstat, hbud, hout, herr⟩ := finalizeTask_nonzero code s1.clock t hcode
  have hobj1 : getTaskObj s1 tid = some t := hobj
  have hupd : getTaskObj (updateTaskObj s1 tid (fun _ => t2)) tid = some t2 :=
    getTaskObj_updateTaskObj_self (fun _ => t2) (fun _ _ => ht2id) hobj1
  have hfin_obj : getTaskObj (exitFinalize tid code t s1) tid = some t2 := hupd
  have hfin_pend : (exitFinalize tid code t s1).pendingIds = s.pendingIds := rfl
  have hfin_ev : (exitFinalize tid code t s1).events =
      s.events ++ [TaskEvent.failed t2] := by
    show s.events ++ [if code = some 0 then TaskEvent.completed t2 else TaskEvent.failed t2]
      = s.events ++ [TaskEvent.failed t2]
    rw [if_neg hcode]
  have hfin_hist : (exitFinalize tid code t s1).historyWrites =
      s.historyWrites ++ [t2] := rfl
  have hfin_run : (exitFinalize tid code t s1).runningIds = s.runningIds.erase tid := rfl
  obtain ⟨⟨evs, he⟩, ⟨ws, hw⟩, ⟨rs, hr, hrm⟩, hpq, hg⟩ :=
    processQueue_mono lookup (exitFinalize tid code t s1)
  refine ⟨t2, ?_, hstat, hbud, hout, herr, ?_, ?_, ?_⟩
  · rw [hmain, hg tid (by rw [hfin_pend]; exact hpend), hfin_obj]
  · rw [hmain, he, hfin_ev]
    exact List.prefix_append _ _
  · rw [hmain, hw, hfin_hist]
    exact List.prefix_append _ _
  · rw [hmain, hr, hfin_run]
    intro hmem
    rcases List.mem_append.mp hmem with h1 | h2
    · exact hnodup.not_mem_erase h1
    · have := hrm tid h2
      rw [hfin_pend] at this
      exact hpend this

/-- C2: code bug.  After `cancelTask` on a running task the task is cancelled,
`getTask` returns absent and one history persistence happened; but when the
killed process's exit event later arrives, the still-attached exit handler
fires again for the same task: it emits a fourth event (a `task:failed` for
the already-cancelled task), re-finalizes the task's status from cancelled to
failed, and calls `addTaskToHistory` a second time — contradicting the claim
that no further event is emitted and that the late exit cannot re-finalize or
re-persist. -/
theorem c2_late_exit_bug :
    getTask (run (fun _ => some "/w") initState
        [Action.create { projectId := "p", prompt := "fix", maxBudget := none },
         Action.cancel 0]) 0 = none ∧
    (getTaskObj (run (fun _ => some "/w") initState
        [Action.create { projectId := "p", prompt := "fix", maxBudget := none },
         Action.cancel 0]) 0).map Task.status = some TaskStatus.cancelled ∧
    (run (fun _ => some "/w") initState
        [Action.create { projectId := "p", prompt := "fix", maxBudget := none },
         Action.cancel 0]).historyWrites.length = 1 ∧
    (run (fun _ => some "/w") initState
        [Action.create { projectId := "p", prompt := "fix", maxBudget := none },
         Action.cancel 0]).events.length = 3 ∧
    (run (fun _ => some "/w") initState
        [Action.create { projectId := "p", prompt := "fix", maxBudget := none },
         Action.cancel 0, Action.procExit 0 none]).events.length = 4 ∧
    (run (fun _ => some "/w") initState
        [Action.create { projectId := "p", prompt := "fix", maxBudget := none },
         Action.cancel 0, Action.procExit 0 none]).events.countP isFailedEvent = 1 ∧
    ((run (fun _ => some "/w") initState
        [Action.create { projectId := "p", prompt := "fix", maxBudget := none },
         Action.cancel 0, Action.procExit 0 none]).events.getLast?).map eventTaskId =
      some 0 ∧
    (getTaskObj (run (fun _ => some "/w") initState
        [Action.create { projectId := "p", prompt := "fix", maxBudget := none },
         Action.cancel 0, Action.procExit 0 none]) 0).map Task.status =
      some TaskStatus.failed ∧
    (run (fun _ => some "/w") initState
        [Action.create { projectId := "p", prompt := "fix", maxBudget := none },
         Action.cancel 0, Action.procExit 0 none]).historyWrites.length = 2 := by
  refine ⟨?_, ?_, ?_, ?_, ?_, ?_, ?_, ?_, ?_⟩ <;> rfl

/-- C3: for any run of submissions (every project resolving, no process
events in between), at every point — i.e. after every prefix of the
submission sequence — the running count never exceeds 3 and the pending count
equals the number of submissions so far minus the running count. -/
theorem c3_concurrency_ceiling (path : String → String)
    (inputs pre : List CreateTaskInput) (_hpre : pre <+: inputs) :
    getRunningCount (run (allProjects path) initState (pre.map Action.create)) ≤ 3 ∧
    getPendingCount (run (allProjects path) initState (pre.map Action.create)) =
      pre.length - getRunningCount (run (allProjects path) initState (pre.map Action.create)) := by
  have hinv := createsInv_run path pre 0 initState createsInv_zero
  rw [Nat.zero_add] at hinv
  obtain ⟨hids, hrun, hpend, hlive, hnext, hstart⟩ := hinv
  constructor
  · show (run (allProjects path) initState (pre.map Action.create)).runningIds.length ≤ 3
    rw [hrun, List.length_range]
    exact min_le_right _ _
  · show (run (allProjects path) initState (pre.map Action.create)).pendingIds.length =
      pre.length - (run (allProjects path) initState (pre.map Action.create)).runningIds.length
    rw [hpend, hrun, List.length_drop, List.length_range, List.length_range]
    rcases Nat.le_total pre.length 3 with h | h
    · rw [Nat.min_eq_left h]
      omega
    · rw [Nat.min_eq_right h]

/-- C3 witness: four submissions yield 3 running and 1 = 4 - 3 pending. -/
theorem c3_witness :
    getRunningCount (run (allProjects fun _ => "/w") initState
      (([{ projectId := "p", prompt := "a", maxBudget := none },
         { projectId := "p", prompt := "b", maxBudget := none },
         { projectId := "p", prompt := "c", maxBudget := none },
         { projectId := "p", prompt := "d", maxBudget := none }] :
        List CreateTaskInput).map Action.create)) ≤ 3 ∧
    getPendingCount (run (allProjects fun _ => "/w") initState
      (([{ projectId := "p", prompt := "a", maxBudget := none },
         { projectId := "p", prompt := "b", maxBudget := none },
         { projectId := "p", prompt := "c", maxBudget := none },
         { projectId := "p", prompt := "d", maxBudget := none }] :
        List CreateTaskInput).map Action.create)) =
      4 - getRunningCount (run (allProjects fun _ => "/w") initState
        (([{ projectId := "p", prompt := "a", maxBudget := none },
           { projectId := "p", prompt := "b", maxBudget := none },
           { projectId := "p", prompt := "c", maxBudget := none },
           { projectId := "p", prompt := "d", maxBudget := none }] :
          List CreateTaskInput).map Action.create)) :=
  c3_concurrency_ceiling (fun _ => "/w")
    [{ projectId := "p", prompt := "a", maxBudget := none },
     { projectId := "p", prompt := "b", maxBudget := none },
     { projectId := "p", prompt := "c", maxBudget := none },
     { projectId := "p", prompt := "d", maxBudget := none }]
    [{ projectId := "p", prompt := "a", maxBudget := none },
     { projectId := "p", prompt := "b", maxBudget := none },
     { projectId := "p", prompt := "c", maxBudget := none },
     { projectId := "p", prompt := "d", maxBudget := none }]
    (List.prefix_refl _)

/-- C4: strict FIFO admission.  After submitting A, B, C, D and any further
tasks (every project resolving), exactly A, B, C have started — in submission
order — and D (id 3) heads the queue; whichever of the running tasks is
cancelled, or exits with whatever code, the very next `task:started` event is
for D, not for any later submission. -/
theorem c4_fifo_admission (path : String → String) (a b c d : CreateTaskInput)
    (rest : List CreateTaskInput) (s : ManagerState)
    (hs : s = run (allProjects path) initState (([a, b, c, d] ++ rest).map Action.create)) :
    startedIds s.events = [0, 1, 2] ∧
    s.pendingIds.head? = some 3 ∧
    (∀ r ∈ s.runningIds,
      startedIds ((cancelTask (allProjects path) r s).1).events =
        startedIds s.events ++ [3]) ∧
    (∀ r ∈ s.runningIds, ∀ code : Option Int,
      startedIds (handleExit (allProjects path) r code s).events =
        startedIds s.events ++ [3]) := by
  have hinv := createsInv_run path ([a, b, c, d] ++ rest) 0 initState createsInv_zero
  rw [Nat.zero_add, ← hs] at hinv
  obtain ⟨hids, hrun, hpend, hlive, hnext, hstart⟩ := hinv
  set k : Nat := ([a, b, c, d] ++ rest).length with hkdef
  have hk4 : 4 ≤ k := by
    rw [hkdef, List.length_append]
    simp
  have hmin : min k 3 = 3 := Nat.min_eq_right (by omega)
  have hpend3 : s.pendingIds = List.range' 3 (k - 3) := by
    rw [hpend]
    exact range_drop_three k (by omega)
  have hstart3 : startedIds s.events = [0, 1, 2] := by
    rw [hstart, hmin]
    rfl
  refine ⟨hstart3, ?_, ?_, ?_⟩
  · rw [hpend3, show k - 3 = (k - 4) + 1 from by omega, List.range'_succ]
    rfl
  · intro r hr
    have hrlt : r < 3 := by
      rw [hrun, hmin] at hr
      exact List.mem_range.mp hr
    have hpnone : s.pendingIds.findIdx? (fun i => i == r) = none := by
      apply findIdx?_eq_none_of_forall
      intro x hx
      rw [hpend3] at hx
      obtain ⟨i, hi, hxeq⟩ := List.mem_range'.mp hx
      simp
      omega
    have hcont : s.runningIds.contains r = true := (contains_iff _ _).mpr hr
    obtain ⟨t, hobj, hidt⟩ := getTaskObj_of_id_mem s r (by
      rw [hids]
      exact List.mem_range.mpr (by omega))
    rw [cancelTask_eq_running (allProjects path) r s t hpnone hcont hobj]
    show startedIds (processQueue (allProjects path)
      (cancelFinalizeRunning r t s)).events = startedIds s.events ++ [3]
    have hidsC : (cancelFinalizeRunning r t s).tasks.map Task.id = List.range k := by
      have hpres := updateTaskObj_ids s r
        (fun _ => { t with status := TaskStatus.cancelled, completedAt := some s.clock })
        (fun t2 ht2 => by rw [ht2]; exact hidt)
      exact hpres.trans hids
    have hrunC : (cancelFinalizeRunning r t s).runningIds.length = 2 := by
      show (s.runningIds.erase r).length = 2
      rw [List.length_erase_of_mem hr, hrun, hmin]
      rfl
    have hpendC : (cancelFinalizeRunning r t s).pendingIds = List.range' 3 (k - 3) := hpend3
    rw [promote_next path k hk4 (cancelFinalizeRunning r t s) hidsC hrunC hpendC,
      startedIds_cancelFinalize]
  · intro r hr code
    have hrlt : r < 3 := by
      rw [hrun, hmin] at hr
      exact List.mem_range.mp hr
    have hcont2 : s.liveHandlers.contains r = true := by
      apply (contains_iff _ _).mpr
      rw [hlive, hmin]
      rw [hrun, hmin] at hr
      exact hr
    obtain ⟨t, hobj, hidt⟩ := getTaskObj_of_id_mem s r (by
      rw [hids]
      exact List.mem_range.mpr (by omega))
    rw [handleExit_eq_of_live (allProjects path) r code s t hcont2 hobj]
    have hidsE : (exitFinalize r code t
        { s with liveHandlers := s.liveHandlers.erase r }).tasks.map Task.id
        = List.range k := by
      have hpres := updateTaskObj_ids { s with liveHandlers := s.liveHandlers.erase r } r
        (fun _ => finalizeTask code
          ({ s with liveHandlers := s.liveHandlers.erase r } : ManagerState).clock t)
        (fun t2 ht2 => by rw [ht2, finalizeTask_id]; exact hidt)
      exact hpres.trans hids
    have hrunE : (exitFinalize r code t
        { s with liveHandlers := s.liveHandlers.erase r }).runningIds.length = 2 := by
      show (s.runningIds.erase r).length = 2
      rw [List.length_erase_of_mem hr, hrun, hmin]
      rfl
    have hpendE : (exitFinalize r code t
        { s with liveHandlers := s.liveHandlers.erase r }).pendingIds
        = List.range' 3 (k - 3) := hpend3
    rw [promote_next path k hk4 _ hidsE hrunE hpendE, startedIds_exitFinalize]

/-- C4 witness: submit five concrete tasks; A, B, C run, D (id 3) heads the
queue; cancelling running task 1 makes D the next started task, ahead of the
later submission E. -/
theorem c4_witness :
    startedIds (run (allProjects fun _ => "/w") initState
      ((([{ projectId := "p", prompt := "A", maxBudget := none },
          { projectId := "p", prompt := "B", maxBudget := none },
          { projectId := "p", prompt := "C", maxBudget := none },
          { projectId := "p", prompt := "D", maxBudget := none }] ++
         [{ projectId := "p", prompt := "E", maxBudget := none }]) :
        List CreateTaskInput).map Action.create)).events = [0, 1, 2] ∧
    startedIds ((cancelTask (allProjects fun _ => "/w") 1
      (run (allProjects fun _ => "/w") initState
        ((([{ projectId := "p", prompt := "A", maxBudget := none },
            { projectId := "p", prompt := "B", maxBudget := none },
            { projectId := "p", prompt := "C", maxBudget := none },
            { projectId := "p", prompt := "D", maxBudget := none }] ++
           [{ projectId := "p", prompt := "E", maxBudget := none }]) :
          List CreateTaskInput).map Action.create))).1).events = [0, 1, 2, 3] := by
  have h := c4_fifo_admission (fun _ => "/w")
    { projectId := "p", prompt := "A", maxBudget := none }
    { projectId := "p", prompt := "B", maxBudget := none }
    { projectId := "p", prompt := "C", maxBudget := none }
    { projectId := "p", prompt := "D", maxBudget := none }
    [{ projectId := "p", prompt := "E", maxBudget := none }]
    (run (allProjects fun _ => "/w") initState
      ((([{ projectId := "p", prompt := "A", maxBudget := none },
          { projectId := "p", prompt := "B", maxBudget := none },
          { projectId := "p", prompt := "C", maxBudget := none },
          { projectId := "p", prompt := "D", maxBudget := none }] ++
         [{ projectId := "p", prompt := "E", maxBudget := none }]) :
        List CreateTaskInput).map Action.create)) rfl
  refine ⟨h.1, ?_⟩
  rw [h.2.2.1 1 (by decide), h.1]
  rfl

end CCManager
